import Mathlib

/-!
Shallow embedding of the video_manger persistence layer (store/sqlite.go,
store/store.go, store/migrate.go, db/schema.sql + store/migrations/*.sql,
and the directory-sync engine in main.go).

The SQLite database is modelled as lists of rows; each store operation is a
pure function mirroring the SQL statement it executes.  SQL `UPDATE`/`DELETE`
statements succeed with zero affected rows, so the corresponding operations
are total functions on the state; row lookups that `Scan` a single row return
`Option` (`none` = `sql.ErrNoRows`, surfaced as an error in Go).  The
referential actions declared in the schema (`ON DELETE SET NULL` on
`videos.directory_id`, `ON DELETE CASCADE` on `video_tags` and
`watch_history`) are part of the delete operations, as the code opens the
connection with `PRAGMA foreign_keys = ON`.  `REAL` positions are modelled as
`Int` (positions are only stored and returned, never computed with) and
`datetime('now')` as a `Nat` clock supplied by the caller's environment.
-/

namespace VideoManger

/-- A row of the `videos` table (schema.sql plus the `rating` column added by
migration 003_likes.sql).  `directory_id` is nullable. -/
structure Video where
  id : Nat
  filename : String
  directoryId : Option Nat
  directoryPath : String
  displayName : String
  rating : Int
deriving DecidableEq, Repr

/-- A row of the `directories` table. -/
structure Directory where
  id : Nat
  path : String
deriving DecidableEq, Repr

/-- A row of the `tags` table. -/
structure Tag where
  id : Nat
  name : String
deriving DecidableEq, Repr

/-- A row of the `watch_history` table (migration 003_likes.sql):
one row per video (`UNIQUE(video_id)`), last position and timestamp. -/
structure WatchRecord where
  videoId : Nat
  position : Int
  watchedAt : Nat
deriving DecidableEq, Repr

/-- The database state: one list per table, plus the AUTOINCREMENT counters.
`video_tags` rows are `(video_id, tag_id)` pairs and `settings` rows are
`(key, value)` pairs. -/
structure DB where
  directories : List Directory
  videos : List Video
  tags : List Tag
  videoTags : List (Nat × Nat)
  watchHistory : List WatchRecord
  settings : List (String × String)
  nextVideoId : Nat
  nextTagId : Nat
deriving DecidableEq, Repr

/-- The empty database (fresh file after migrations). -/
def DB.empty : DB :=
  { directories := [], videos := [], tags := [], videoTags := [],
    watchHistory := [], settings := [], nextVideoId := 1, nextTagId := 1 }

/-- The `(filename, directory_path)` UNIQUE key of the `videos` table. -/
def keyMatch (filename directoryPath : String) (v : Video) : Bool :=
  v.filename == filename && v.directoryPath == directoryPath

/-- `Video.Title` from store/store.go: display name if set, else filename.
This is also the SQL expression `COALESCE(NULLIF(display_name, ''), filename)`
used by every ORDER BY in sqlite.go. -/
def Video.Title (v : Video) : String :=
  if v.displayName ≠ "" then v.displayName else v.filename

/-- Go `path/filepath.Join` restricted to a clean directory and a bare
filename, as produced by the walk: `dir ++ "/" ++ name`. -/
def joinPath (dir name : String) : String :=
  dir ++ "/" ++ name

/-- `Video.FilePath` from store/store.go. -/
def Video.FilePath (v : Video) : String :=
  joinPath v.directoryPath v.filename

/-- `SQLiteStore.GetDirectory`: `SELECT id, path FROM directories WHERE id = ?`
(`none` models the `sql.ErrNoRows` error). -/
def GetDirectory (db : DB) (id : Nat) : Option Directory :=
  db.directories.find? (fun d => d.id == id)

/-- `SQLiteStore.DeleteDirectory`: `DELETE FROM directories WHERE id = ?`.
The schema declares `videos.directory_id REFERENCES directories(id)
ON DELETE SET NULL`, so referencing videos keep every field except
`directory_id`, which becomes NULL. -/
def DeleteDirectory (db : DB) (id : Nat) : DB :=
  { db with
    directories := db.directories.filter (fun d => d.id != id),
    videos := db.videos.map (fun v =>
      if v.directoryId == some id then { v with directoryId := none } else v) }

/-- `SQLiteStore.UpsertVideo`:
`INSERT INTO videos (filename, directory_id, directory_path) VALUES (?, ?, ?)
 ON CONFLICT (filename, directory_path) DO UPDATE SET
   directory_id = excluded.directory_id
 RETURNING id, filename, directory_id, directory_path, display_name, rating`.
`display_name` defaults to `''` and `rating` to `0` on insert. -/
def UpsertVideo (db : DB) (dirID : Nat) (dirPath filename : String) :
    Video × DB :=
  match db.videos.find? (keyMatch filename dirPath) with
  | some v =>
    ({ v with directoryId := some dirID },
     { db with videos := db.videos.map (fun w =>
        if keyMatch filename dirPath w then { w with directoryId := some dirID }
        else w) })
  | none =>
    let v : Video :=
      { id := db.nextVideoId, filename := filename, directoryId := some dirID
        directoryPath := dirPath, displayName := "", rating := 0 }
    (v, { db with videos := db.videos ++ [v],
                  nextVideoId := db.nextVideoId + 1 })

/-- `SQLiteStore.GetVideo`: `SELECT ... FROM videos WHERE id = ?`
(`none` models the `sql.ErrNoRows` error). -/
def GetVideo (db : DB) (id : Nat) : Option Video :=
  db.videos.find? (fun v => v.id == id)

/-- `SQLiteStore.SetVideoRating`: `UPDATE videos SET rating = ? WHERE id = ?`.
The statement performs no range validation; with no matching row it succeeds
affecting zero rows. -/
def SetVideoRating (db : DB) (id : Nat) (rating : Int) : DB :=
  { db with videos := db.videos.map (fun v =>
      if v.id == id then { v with rating := rating } else v) }

/-- `SQLiteStore.UpdateVideoName` (query.sql UpdateVideoName):
`UPDATE videos SET display_name = ? WHERE id = ?`. -/
def UpdateVideoName (db : DB) (id : Nat) (name : String) : DB :=
  { db with videos := db.videos.map (fun v =>
      if v.id == id then { v with displayName := name } else v) }

/-- `SQLiteStore.DeleteVideo`: `DELETE FROM videos WHERE id = ?`.
`video_tags` and `watch_history` rows referencing the video are removed by
their `ON DELETE CASCADE` foreign keys. -/
def DeleteVideo (db : DB) (id : Nat) : DB :=
  { db with
    videos := db.videos.filter (fun v => v.id != id),
    videoTags := db.videoTags.filter (fun p => p.1 != id),
    watchHistory := db.watchHistory.filter (fun w => w.videoId != id) }

/-- `SQLiteStore.UpsertTag` (query.sql UpsertTag):
`INSERT INTO tags (name) VALUES (?)
 ON CONFLICT (name) DO UPDATE SET name = excluded.name RETURNING *`. -/
def UpsertTag (db : DB) (name : String) : Tag × DB :=
  match db.tags.find? (fun t => t.name == name) with
  | some t => (t, db)
  | none =>
    let t : Tag := { id := db.nextTagId, name := name }
    (t, { db with tags := db.tags ++ [t], nextTagId := db.nextTagId + 1 })

/-- `SQLiteStore.TagVideo` (query.sql TagVideo):
`INSERT OR IGNORE INTO video_tags (video_id, tag_id) VALUES (?, ?)`. -/
def TagVideo (db : DB) (videoID tagID : Nat) : DB :=
  if (videoID, tagID) ∈ db.videoTags then db
  else { db with videoTags := db.videoTags ++ [(videoID, tagID)] }

/-- `SQLiteStore.UntagVideo` (query.sql UntagVideo):
`DELETE FROM video_tags WHERE video_id = ? AND tag_id = ?`. -/
def UntagVideo (db : DB) (videoID tagID : Nat) : DB :=
  { db with videoTags :=
      db.videoTags.filter (fun p => !(p.1 == videoID && p.2 == tagID)) }

/-- `SQLiteStore.GetSetting`: `SELECT value FROM settings WHERE key = ?`,
with `sql.ErrNoRows` translated to `("", nil)` — absence returns the empty
string, not an error. -/
def GetSetting (db : DB) (key : String) : String :=
  match db.settings.find? (fun p => p.1 == key) with
  | some p => p.2
  | none => ""

/-- `SQLiteStore.SetSetting`:
`INSERT INTO settings (key, value) VALUES (?, ?)
 ON CONFLICT (key) DO UPDATE SET value = excluded.value`. -/
def SetSetting (db : DB) (key value : String) : DB :=
  if db.settings.any (fun p => p.1 == key) then
    { db with settings := db.settings.map (fun p =>
        if p.1 == key then (p.1, value) else p) }
  else
    { db with settings := db.settings ++ [(key, value)] }

/-- `SQLiteStore.RecordWatch`:
`INSERT INTO watch_history (video_id, position, watched_at)
 VALUES (?, ?, datetime('now'))
 ON CONFLICT (video_id) DO UPDATE SET position = excluded.position,
   watched_at = excluded.watched_at`.
`now` is the value of `datetime('now')` at call time. -/
def RecordWatch (db : DB) (videoID : Nat) (position : Int) (now : Nat) : DB :=
  if db.watchHistory.any (fun w => w.videoId == videoID) then
    { db with watchHistory := db.watchHistory.map (fun w =>
        if w.videoId == videoID then
          { videoId := videoID, position := position, watchedAt := now }
        else w) }
  else
    { db with watchHistory := db.watchHistory ++
        [{ videoId := videoID, position := position, watchedAt := now }] }

/-- `SQLiteStore.GetWatch`: `SELECT video_id, position, watched_at FROM
watch_history WHERE video_id = ?` (`none` models the `sql.ErrNoRows` error,
which Go returns to the caller). -/
def GetWatch (db : DB) (videoID : Nat) : Option WatchRecord :=
  db.watchHistory.find? (fun w => w.videoId == videoID)

/-- `SQLiteStore.ListWatchedIDs`: `SELECT video_id FROM watch_history`. -/
def ListWatchedIDs (db : DB) : List Nat :=
  db.watchHistory.map (fun w => w.videoId)

/-! ### String primitives

SQLite compares TEXT under the default BINARY collation: a byte-wise
`memcmp`, which on UTF-8 agrees with lexicographic comparison of unicode
codepoints.  `LOWER()` in SQLite folds ASCII letters only. -/

/-- ASCII lower-casing of one character (SQLite `LOWER`). -/
def lowerChar (c : Char) : Char :=
  if 65 ≤ c.toNat ∧ c.toNat ≤ 90 then Char.ofNat (c.toNat + 32) else c

/-- ASCII lower-casing of a string (SQLite `LOWER`). -/
def lowerStr (s : String) : String :=
  String.mk (s.data.map lowerChar)

/-- Strict lexicographic order on character lists by codepoint: the BINARY
collation SQLite uses for every `ORDER BY` in sqlite.go. -/
def charListLT : List Char → List Char → Bool
  | [], [] => false
  | [], _ :: _ => true
  | _ :: _, [] => false
  | a :: as, b :: bs =>
    decide (a.toNat < b.toNat) || (a == b && charListLT as bs)

/-- Non-strict BINARY-collation comparison of strings. -/
def strLE (a b : String) : Bool :=
  !(charListLT b.data a.data)

/-- The `ORDER BY COALESCE(NULLIF(display_name, ''), filename)` relation. -/
def titleLE (a b : Video) : Prop :=
  strLE a.Title b.Title = true

instance titleLE.instDecidableRel : DecidableRel titleLE :=
  fun _ _ => inferInstanceAs (Decidable (_ = true))

/-- The `ORDER BY rating DESC, COALESCE(NULLIF(display_name, ''), filename)`
relation of ListVideosByRating. -/
def ratingTitleLE (a b : Video) : Prop :=
  b.rating < a.rating ∨ (a.rating = b.rating ∧ titleLE a b)

instance ratingTitleLE.instDecidableRel : DecidableRel ratingTitleLE :=
  fun _ _ => inferInstanceAs (Decidable (_ ∨ _))

/-- `SQLiteStore.ListVideos`: all rows of `videos`, ordered by the effective
title.  `ORDER BY` is modelled as a sort of the table. -/
def ListVideos (db : DB) : List Video :=
  List.insertionSort titleLE db.videos

/-- `SQLiteStore.ListVideosByTag`: rows of `videos` joined with `video_tags`
on the given tag, ordered by the effective title. -/
def ListVideosByTag (db : DB) (tagID : Nat) : List Video :=
  List.insertionSort titleLE
    (db.videos.filter (fun v => decide ((v.id, tagID) ∈ db.videoTags)))

/-- `SQLiteStore.ListVideosByRating`: all rows of `videos`, ordered by
rating descending then by the effective title. -/
def ListVideosByRating (db : DB) : List Video :=
  List.insertionSort ratingTitleLE db.videos

/-- `true` when `hay` starts with `pat`. -/
def leadsWith : List Char → List Char → Bool
  | [], _ => true
  | _ :: _, [] => false
  | a :: as, b :: bs => a == b && leadsWith as bs

/-- `true` when `pat` occurs as a contiguous run inside `hay`: the
`LIKE '%' || pat || '%'` match (metacharacters inside the query string are
not modelled; the claims do not exercise them). -/
def containsSub (pat : List Char) : List Char → Bool
  | [] => leadsWith pat []
  | c :: rest => leadsWith pat (c :: rest) || containsSub pat rest

/-- `SQLiteStore.SearchVideos`:
`WHERE LOWER(COALESCE(NULLIF(display_name, ''), filename)) LIKE LOWER(?)`
with pattern `"%" + query + "%"`, ordered by the effective title. -/
def SearchVideos (db : DB) (query : String) : List Video :=
  List.insertionSort titleLE
    (db.videos.filter (fun v =>
      containsSub (lowerStr query).data (lowerStr v.Title).data))

/-! ### Migration engine (store/migrate.go)

The schema state is an abstract type `σ`; a migration script is its
filename together with the effect of `tx.Exec(script)`, where `none` is a
failing execution.  A `MigState` is the `schema_migrations` ledger plus the
schema state.  Each loop iteration of `runMigrations` checks the ledger,
then executes the script and inserts the ledger row inside one transaction:
on failure the transaction rolls back, leaving the state untouched, and the
function returns the error. -/

/-- One embedded migration file. -/
structure Script (σ : Type) where
  filename : String
  exec : σ → Option σ

/-- The database as the migration engine sees it: schema state plus the
`schema_migrations` ledger (in order of application). -/
structure MigState (σ : Type) where
  dbs : σ
  ledger : List String

/-- `strings.TrimSuffix(name, ".sql")`: drop the suffix when present. -/
def trimSqlSuffix (name : String) : String :=
  if name.data.reverse.take 4 = ['l', 'q', 's', '.'] then
    String.mk (name.data.take (name.data.length - 4))
  else name

/-- The migration loop of `runMigrations` over an already-sorted script
list.  The second component is the error (`some failedVersion`) or `none`. -/
def runList {σ : Type} : List (Script σ) → MigState σ → MigState σ × Option String
  | [], st => (st, none)
  | s :: rest, st =>
    if trimSqlSuffix s.filename ∈ st.ledger then runList rest st
    else
      match s.exec st.dbs with
      | none => (st, some (trimSqlSuffix s.filename))
      | some d => runList rest
          { dbs := d, ledger := st.ledger ++ [trimSqlSuffix s.filename] }

/-- `sort.Slice(entries, func(i, j) { names[i] < names[j] })`:
the embedded scripts sorted by filename. -/
def sortScripts {σ : Type} (scripts : List (Script σ)) : List (Script σ) :=
  List.insertionSort (fun a b => strLE a.filename b.filename = true) scripts

/-- `runMigrations` (store/migrate.go): sort the embedded scripts by
filename, then apply each unapplied one. -/
def runMigrations {σ : Type} (scripts : List (Script σ)) (st : MigState σ) :
    MigState σ × Option String :=
  runList (sortScripts scripts) st

/-- Concrete migration fixture: two scripts given out of order, the second
of which fails. -/
def c2scripts : List (Script Nat) :=
  [{ filename := "002_b.sql", exec := fun _ => none },
   { filename := "001_a.sql", exec := fun n => some (n + 1) }]

/-! ### Directory sync engine (main.go syncDir) -/

/-- A filesystem subtree as `filepath.WalkDir` traverses it (children listed
in the walk order). -/
inductive FTree where
  | file (name : String)
  | dir (name : String) (children : List FTree)
deriving Repr

/-- `filepath.Ext`: the suffix starting at the final dot, `""` if none. -/
def extOf (name : String) : String :=
  let rev := name.data.reverse
  if rev.any (fun c => c == '.') then
    String.mk ('.' :: (rev.takeWhile (fun c => c != '.')).reverse)
  else ""

/-- `isVideoFile` (main.go): recognized video extensions, case-insensitive. -/
def isVideoFile (name : String) : Bool :=
  let e := lowerStr (extOf name)
  e == ".mp4" || e == ".webm" || e == ".ogg" || e == ".mov" || e == ".mkv" ||
    e == ".avi"

/-- `filepath.Base`: last element of the path after dropping trailing
slashes; `"."` for the empty path, `"/"` for all-slash paths. -/
def baseOf (path : String) : String :=
  if path = "" then "."
  else
    let rev := path.data.reverse.dropWhile (fun c => c == '/')
    if rev.isEmpty then "/"
    else String.mk ((rev.takeWhile (fun c => c != '/')).reverse)

mutual

/-- The video files below one walked entry whose containing directory is
`cur`, as `(containing directory, filename)` pairs: regular files pass the
`isVideoFile` filter, directories are recursed into. -/
def collectTree (cur : String) : FTree → List (String × String)
  | .file n => if isVideoFile n then [(cur, n)] else []
  | .dir n cs => collectList (joinPath cur n) cs

/-- `collectTree` over a list of sibling entries. -/
def collectList (cur : String) : List FTree → List (String × String)
  | [] => []
  | t :: ts => collectTree cur t ++ collectList cur ts

end

/-- One iteration of the `filepath.WalkDir` callback in `syncDir` for a
video file `f = (parent, name)`: upsert the video under its actual parent
directory with the registered directory's id; if the returned row has no
display name, read the native title (`readTitle path = none` models a
`metadata.Read` error, `some t` a successful read with title `t`) and set it
when non-empty; finally upsert the tag named after the registered root's
base name and associate it with the video. -/
def syncFile (readTitle : String → Option String) (d : Directory) (db : DB)
    (f : String × String) : DB :=
  let r := UpsertVideo db d.id f.1 f.2
  let v := r.1
  let db1 := r.2
  let db2 :=
    if v.displayName = "" then
      match readTitle (joinPath f.1 f.2) with
      | some t => if t ≠ "" then UpdateVideoName db1 v.id t else db1
      | none => db1
    else db1
  let r2 := UpsertTag db2 (baseOf d.path)
  TagVideo r2.2 v.id r2.1.id

/-- `syncDir` (main.go): walk the registered directory's tree (`tree` is the
list of entries directly under `d.path`) and reconcile every video file. -/
def syncDir (readTitle : String → Option String) (d : Directory)
    (tree : List FTree) (db : DB) : DB :=
  (collectList d.path tree).foldl (syncFile readTitle d) db

/-- The state `syncFile` establishes for one walked video file
`f = (parent, name)`: the catalog row for `f`'s key exists with
`directory_id` pointing at the registered directory, its display name can
no longer be back-filled (it is set, or the metadata read yields nothing),
and the row carries the auto-tag named after the registered root's base
name. -/
def Synced (readTitle : String → Option String) (d : Directory)
    (f : String × String) (db : DB) : Prop :=
  ∃ v, db.videos.find? (keyMatch f.2 f.1) = some v ∧
    v.directoryId = some d.id ∧
    (v.displayName = "" →
      readTitle (joinPath f.1 f.2) = none ∨
      readTitle (joinPath f.1 f.2) = some "") ∧
    ∃ t, db.tags.find? (fun t => t.name == baseOf d.path) = some t ∧
      (v.id, t.id) ∈ db.videoTags

/-- Concrete sync fixture: scenario A's registered root. -/
def exDirShows : Directory :=
  { id := 7, path := "/library/Shows" }

/-- Concrete sync fixture: scenario A's tree — one video at the root, one
in a nested subfolder, one non-video file. -/
def exTreeShows : List FTree :=
  [FTree.file "a.mp4", FTree.dir "Season1" [FTree.file "b.mkv"],
   FTree.file "notes.txt"]

/-! ### HTTP handler models (main.go) -/

/-- `server.handleSetRating` after id parsing: the handler rejects ratings
outside `{0,1,2}` with HTTP 400 before calling the store; in range it calls
`SetVideoRating`.  `Except.error` carries the 400 message and means the
database was not touched. -/
def handleSetRating (db : DB) (id : Nat) (rating : Int) : Except String DB :=
  if rating < 0 ∨ rating > 2 then Except.error "rating must be 0, 1, or 2"
  else Except.ok (SetVideoRating db id rating)

/-- Database plus the disk contents, for stating that an operation touches
no file. -/
structure World where
  db : DB
  disk : List String

/-- `server.handleDeleteDirectory` after id parsing: the handler performs
exactly one store call, `DeleteDirectory`; it contains no filesystem
operation. -/
def handleDeleteDirectory (w : World) (id : Nat) : World :=
  { w with db := DeleteDirectory w.db id }

/-! ### Invariants -/

/-- Well-formedness that the SQLite constraints guarantee for every
reachable database: AUTOINCREMENT ids are distinct and below the counters,
the `(filename, directory_path)` UNIQUE constraint holds, tag names are
UNIQUE, and `video_tags` rows are distinct (composite PRIMARY KEY). -/
def WF (db : DB) : Prop :=
  (db.videos.map (fun v => v.id)).Nodup ∧
  (∀ v ∈ db.videos, v.id < db.nextVideoId) ∧
  (db.videos.map (fun v => (v.filename, v.directoryPath))).Nodup ∧
  (db.tags.map (fun t => t.name)).Nodup ∧
  db.videoTags.Nodup

instance WF.instDecidable (db : DB) : Decidable (WF db) :=
  inferInstanceAs (Decidable (_ ∧ _))

/-- Adjacent-pairs check that a list of videos is ordered by the
*case-insensitive* effective title — the ordering property claim C8
attributes to the listings, following the spec's words. -/
def ciTitleOrderedB : List Video → Bool
  | [] => true
  | [_] => true
  | a :: b :: rest =>
    strLE (lowerStr a.Title) (lowerStr b.Title) && ciTitleOrderedB (b :: rest)

/-- Propositional form of `ciTitleOrderedB`. -/
def ciTitleOrdered (l : List Video) : Prop :=
  ciTitleOrderedB l = true

instance ciTitleOrdered.instDecidable (l : List Video) :
    Decidable (ciTitleOrdered l) :=
  inferInstanceAs (Decidable (ciTitleOrderedB l = true))

/-- Concrete fixture: a one-video database (rating 0) for the rating
claims. -/
def exDb4 : DB :=
  { DB.empty with
    videos :=
      [{ id := 1, filename := "film.mp4", directoryId := none,
         directoryPath := "/v", displayName := "", rating := 0 }],
    nextVideoId := 2 }

/-- Concrete fixture for the ordering claim: two videos whose binary-order
and case-insensitive orders differ (`'B' < 'a'` in bytes, `"aaa" < "bbb"`
case-insensitively). -/
def exDb8 : DB :=
  { DB.empty with
    videos :=
      [{ id := 1, filename := "BBB.mp4", directoryId := none,
         directoryPath := "/v", displayName := "", rating := 0 },
       { id := 2, filename := "aaa.mp4", directoryId := none,
         directoryPath := "/v", displayName := "", rating := 0 }],
    nextVideoId := 3 }

/-! ## Helper lemmas -/

theorem keyMatch_self (v : Video) : keyMatch v.filename v.directoryPath v = true := by
  simp [keyMatch]

theorem keyMatch_iff {fn dp : String} {v : Video} :
    keyMatch fn dp v = true ↔ v.filename = fn ∧ v.directoryPath = dp := by
  simp [keyMatch]

theorem keyMatch_setDirId (fn dp : String) (x : Option Nat) (v : Video) :
    keyMatch fn dp { v with directoryId := x } = keyMatch fn dp v := rfl

theorem keyMatch_setName (fn dp n : String) (v : Video) :
    keyMatch fn dp { v with displayName := n } = keyMatch fn dp v := rfl

theorem find?_map_invar {α : Type} {p : α → Bool} (u : α → α)
    (h : ∀ x, p (u x) = p x) (l : List α) :
    (l.map u).find? p = (l.find? p).map u := by
  rw [List.find?_map]
  have hpu : (p ∘ u) = p := funext h
  rw [hpu]

theorem find?_keyMatch_of_mem {l : List Video}
    (hk : (l.map (fun v => (v.filename, v.directoryPath))).Nodup)
    {v : Video} (hv : v ∈ l) :
    l.find? (keyMatch v.filename v.directoryPath) = some v := by
  cases h : l.find? (keyMatch v.filename v.directoryPath) with
  | none =>
    exact absurd (keyMatch_self v) (by simpa using List.find?_eq_none.mp h v hv)
  | some w =>
    have hw := List.mem_of_find?_eq_some h
    have hpw := keyMatch_iff.mp (List.find?_some h)
    have : w = v :=
      List.inj_on_of_nodup_map hk hw hv (by simp [hpw.1, hpw.2])
    rw [this]

theorem upsert_found {db : DB} {dirID : Nat} {dp fn : String} {v : Video}
    (h : db.videos.find? (keyMatch fn dp) = some v) :
    UpsertVideo db dirID dp fn =
      ({ v with directoryId := some dirID },
       { db with videos := db.videos.map (fun w =>
          if keyMatch fn dp w then { w with directoryId := some dirID }
          else w) }) := by
  unfold UpsertVideo
  rw [h]

theorem upsert_new {db : DB} {dirID : Nat} {dp fn : String}
    (h : db.videos.find? (keyMatch fn dp) = none) :
    UpsertVideo db dirID dp fn =
      ({ id := db.nextVideoId, filename := fn, directoryId := some dirID,
         directoryPath := dp, displayName := "", rating := 0 },
       { db with
          videos := db.videos ++
            [{ id := db.nextVideoId, filename := fn,
               directoryId := some dirID, directoryPath := dp,
               displayName := "", rating := 0 }],
          nextVideoId := db.nextVideoId + 1 }) := by
  unfold UpsertVideo
  rw [h]

theorem upsert_other_tables (db : DB) (dirID : Nat) (dp fn : String) :
    (UpsertVideo db dirID dp fn).2.tags = db.tags ∧
    (UpsertVideo db dirID dp fn).2.videoTags = db.videoTags ∧
    (UpsertVideo db dirID dp fn).2.watchHistory = db.watchHistory ∧
    (UpsertVideo db dirID dp fn).2.settings = db.settings ∧
    (UpsertVideo db dirID dp fn).2.directories = db.directories := by
  rcases h : db.videos.find? (keyMatch fn dp) with _ | v
  · rw [upsert_new h]
    exact ⟨rfl, rfl, rfl, rfl, rfl⟩
  · rw [upsert_found h]
    exact ⟨rfl, rfl, rfl, rfl, rfl⟩

theorem keyMatch_updateFun (fn dp : String) (dirID : Nat) (x : Video) :
    keyMatch fn dp
        (if keyMatch fn dp x then { x with directoryId := some dirID }
         else x) =
      keyMatch fn dp x := by
  cases hx : keyMatch fn dp x
  · simp [hx]
  · simp [hx, keyMatch_setDirId]

theorem upsert_find?_self (db : DB) (dirID : Nat) (dp fn : String) :
    (UpsertVideo db dirID dp fn).2.videos.find? (keyMatch fn dp) =
      some (UpsertVideo db dirID dp fn).1 := by
  rcases h : db.videos.find? (keyMatch fn dp) with _ | v
  · rw [upsert_new h]
    simp only [List.find?_append, h, Option.none_or]
    simp [List.find?, keyMatch]
  · rw [upsert_found h]
    have hu := find?_map_invar
      (fun w : Video =>
        if keyMatch fn dp w then { w with directoryId := some dirID } else w)
      (keyMatch_updateFun fn dp dirID) db.videos
    rw [hu, h]
    simp [List.find?_some h]

/-- C5: two `UpsertVideo` calls with the same `(filename, directory_path)`
key, with any `dirID` values, return the same video id, and the second call
creates no new row. -/
theorem c5_upsert_identity (db : DB) (dirID₁ dirID₂ : Nat)
    (dirPath filename : String) :
    (UpsertVideo (UpsertVideo db dirID₁ dirPath filename).2 dirID₂ dirPath
        filename).1.id =
      (UpsertVideo db dirID₁ dirPath filename).1.id ∧
    (UpsertVideo (UpsertVideo db dirID₁ dirPath filename).2 dirID₂ dirPath
        filename).2.videos.length =
      (UpsertVideo db dirID₁ dirPath filename).2.videos.length := by
  have hf := upsert_find?_self db dirID₁ dirPath filename
  rw [upsert_found hf]
  exact ⟨rfl, by simp⟩

/-- C1: upserting an existing `(filename, directory_path)` key updates only
that row's `directory_id`: its `display_name` and `rating`, every other
video row, the tag associations and the watch records are unchanged, and
the resulting row for that key is returned. -/
theorem c1_upsert_preserves_edits (db : DB) (hwf : WF db) (v : Video)
    (hv : v ∈ db.videos) (dirID : Nat) :
    (UpsertVideo db dirID v.directoryPath v.filename).1 =
      { v with directoryId := some dirID } ∧
    (UpsertVideo db dirID v.directoryPath v.filename).2.videos =
      db.videos.map (fun w =>
        if w = v then { v with directoryId := some dirID } else w) ∧
    (UpsertVideo db dirID v.directoryPath v.filename).1 ∈
      (UpsertVideo db dirID v.directoryPath v.filename).2.videos ∧
    (UpsertVideo db dirID v.directoryPath v.filename).1.displayName =
      v.displayName ∧
    (UpsertVideo db dirID v.directoryPath v.filename).1.rating = v.rating ∧
    (UpsertVideo db dirID v.directoryPath v.filename).1.id = v.id ∧
    (UpsertVideo db dirID v.directoryPath v.filename).2.videoTags =
      db.videoTags ∧
    (UpsertVideo db dirID v.directoryPath v.filename).2.watchHistory =
      db.watchHistory := by
  obtain ⟨-, -, hkeys, -, -⟩ := hwf
  have hf := find?_keyMatch_of_mem hkeys hv
  rw [upsert_found hf]
  refine ⟨rfl, ?_, ?_, rfl, rfl, rfl, rfl, rfl⟩
  · apply List.map_congr_left
    intro w hw
    by_cases hwv : w = v
    · subst hwv
      simp [keyMatch_self]
    · cases hkm : keyMatch v.filename v.directoryPath w
      · simp [hkm, hwv]
      · obtain ⟨h1, h2⟩ := keyMatch_iff.mp hkm
        exact absurd
          (List.inj_on_of_nodup_map hkeys hw hv (by simp [h1, h2])) hwv
  · have hm := List.mem_map_of_mem
      (fun w => if keyMatch v.filename v.directoryPath w then
        { w with directoryId := some dirID } else w) hv
    simpa [keyMatch_self] using hm

/-- Witness for C1 on a concrete database. -/
theorem c1_upsert_preserves_edits_witness :
    (UpsertVideo exDb4 9 "/v" "film.mp4").1 =
      { id := 1, filename := "film.mp4", directoryId := some 9,
        directoryPath := "/v", displayName := "", rating := 0 } := by
  have h := c1_upsert_preserves_edits exDb4 (by decide)
    { id := 1, filename := "film.mp4", directoryId := none,
      directoryPath := "/v", displayName := "", rating := 0 }
    (by decide) 9
  exact h.1

theorem map_eq_self_of {α : Type} {l : List α} {f : α → α}
    (h : ∀ a ∈ l, f a = a) : l.map f = l := by
  rw [List.map_congr_left h]
  simp

/-- C3: deleting a registered directory only removes the directory row and
sets referencing videos' `directory_id` to NULL: every video row survives
with unchanged filename, path, name, and rating (so `FilePath` resolves
identically), the directory no longer resolves, and no file on disk is
touched. -/
theorem c3_soft_directory_deletion (w : World) (d : Directory)
    (_hd : d ∈ w.db.directories) :
    (handleDeleteDirectory w d.id).disk = w.disk ∧
    (handleDeleteDirectory w d.id).db.videos =
      w.db.videos.map (fun v =>
        if v.directoryId == some d.id then { v with directoryId := none }
        else v) ∧
    (handleDeleteDirectory w d.id).db.videos.length = w.db.videos.length ∧
    (∀ v ∈ w.db.videos, ∃ v' ∈ (handleDeleteDirectory w d.id).db.videos,
      v'.id = v.id ∧ v'.filename = v.filename ∧
      v'.directoryPath = v.directoryPath ∧ v'.displayName = v.displayName ∧
      v'.rating = v.rating ∧ v'.FilePath = v.FilePath ∧
      (v.directoryId = some d.id → v'.directoryId = none)) ∧
    GetDirectory (handleDeleteDirectory w d.id).db d.id = none ∧
    (handleDeleteDirectory w d.id).db.videoTags = w.db.videoTags ∧
    (handleDeleteDirectory w d.id).db.watchHistory = w.db.watchHistory := by
  refine ⟨rfl, rfl, List.length_map _ _, ?_, ?_, rfl, rfl⟩
  · intro v hv
    refine ⟨if v.directoryId == some d.id then { v with directoryId := none }
      else v, List.mem_map_of_mem _ hv, ?_⟩
    cases hb : (v.directoryId == some d.id)
    · rw [if_neg (by simp)]
      refine ⟨rfl, rfl, rfl, rfl, rfl, rfl, fun hdir => ?_⟩
      rw [hdir] at hb
      simp at hb
    · rw [if_pos rfl]
      exact ⟨rfl, rfl, rfl, rfl, rfl, rfl, fun _ => rfl⟩
  · unfold GetDirectory handleDeleteDirectory DeleteDirectory
    apply List.find?_eq_none.mpr
    intro x hx
    have := (List.mem_filter.mp hx).2
    simpa using this

/-- Witness for C3 on a concrete world. -/
theorem c3_soft_directory_deletion_witness :
    (handleDeleteDirectory
        { db := { exDb4 with
                  directories := [{ id := 5, path := "/v" }],
                  videos := [{ id := 1, filename := "film.mp4",
                               directoryId := some 5, directoryPath := "/v",
                               displayName := "", rating := 0 }] },
          disk := ["/v/film.mp4"] } 5).db.videos =
      [{ id := 1, filename := "film.mp4", directoryId := none,
         directoryPath := "/v", displayName := "", rating := 0 }] := by
  have h := c3_soft_directory_deletion
    { db := { exDb4 with
              directories := [{ id := 5, path := "/v" }],
              videos := [{ id := 1, filename := "film.mp4",
                           directoryId := some 5, directoryPath := "/v",
                           displayName := "", rating := 0 }] },
      disk := ["/v/film.mp4"] }
    { id := 5, path := "/v" } (by decide)
  exact h.2.1

/-- C4 counterexample: the Store's `SetVideoRating` does not reject the
out-of-range rating 3 — it stores it, changing the prior rating 0. -/
theorem c4_store_accepts_rating_3 :
    GetVideo exDb4 1 =
      some { id := 1, filename := "film.mp4", directoryId := none,
             directoryPath := "/v", displayName := "", rating := 0 } ∧
    GetVideo (SetVideoRating exDb4 1 3) 1 =
      some { id := 1, filename := "film.mp4", directoryId := none,
             directoryPath := "/v", displayName := "", rating := 3 } := by
  exact ⟨rfl, rfl⟩

/-- C4 (amended): the `{0,1,2}` range check lives in the HTTP handler
`handleSetRating`, not in the Store: out-of-range ratings are rejected with
an error before any store call (leaving the rating unchanged), in-range
ratings are passed to `SetVideoRating`, which sets them. -/
theorem c4_handler_rejects_out_of_range (db : DB) (id : Nat) (rating : Int) :
    (rating < 0 ∨ 2 < rating →
      handleSetRating db id rating =
        Except.error "rating must be 0, 1, or 2") ∧
    (0 ≤ rating → rating ≤ 2 →
      handleSetRating db id rating =
        Except.ok (SetVideoRating db id rating) ∧
      ∀ v ∈ db.videos, v.id = id →
        { v with rating := rating } ∈ (SetVideoRating db id rating).videos) := by
  constructor
  · intro h
    unfold handleSetRating
    split
    · rfl
    · rename_i hc
      exact absurd h hc
  · intro h0 h2
    constructor
    · unfold handleSetRating
      split
      · rename_i hc
        rcases hc with hc | hc <;> omega
      · rfl
    · intro v hv hid
      have hm := List.mem_map_of_mem
        (fun v : Video => if v.id == id then { v with rating := rating }
          else v) hv
      simpa [SetVideoRating, hid] using hm

/-- Witness for the amended C4: both branches at concrete inputs. -/
theorem c4_handler_rejects_out_of_range_witness :
    handleSetRating exDb4 1 3 = Except.error "rating must be 0, 1, or 2" ∧
    handleSetRating exDb4 1 1 = Except.ok (SetVideoRating exDb4 1 1) := by
  exact ⟨(c4_handler_rejects_out_of_range exDb4 1 3).1 (by norm_num),
    ((c4_handler_rejects_out_of_range exDb4 1 1).2 (by norm_num)
      (by norm_num)).1⟩

/-- C9: `GetSetting` returns the empty string (and no error) for an absent
key, and `SetSetting` upserts, so a subsequent `GetSetting` returns the
stored value. -/
theorem c9_settings (db : DB) (key value : String) :
    ((∀ p ∈ db.settings, p.1 ≠ key) → GetSetting db key = "") ∧
    GetSetting (SetSetting db key value) key = value := by
  constructor
  · intro h
    have hn : db.settings.find? (fun p => p.1 == key) = none :=
      List.find?_eq_none.mpr (fun p hp => by simp [h p hp])
    unfold GetSetting
    rw [hn]
  · unfold SetSetting
    cases ha : db.settings.any (fun p => p.1 == key)
    · rw [if_neg (by simp)]
      unfold GetSetting
      have hn : db.settings.find? (fun p => p.1 == key) = none :=
        List.find?_eq_none.mpr (fun p hp => by
          have := List.any_eq_false.mp ha p hp
          simpa using this)
      rw [List.find?_append, hn]
      simp
    · rw [if_pos rfl]
      unfold GetSetting
      have hinv : ∀ x : String × String,
          ((if x.1 == key then (x.1, value) else x).1 == key) =
            (x.1 == key) := by
        intro x
        cases hx : (x.1 == key)
        · simp [hx]
        · simp [hx]
      rw [find?_map_invar _ hinv]
      obtain ⟨q, hq⟩ := Option.isSome_iff_exists.mp
        (by
          obtain ⟨x, hx, hpx⟩ := List.any_eq_true.mp ha
          exact List.find?_isSome.mpr ⟨x, hx, hpx⟩)
      rw [hq]
      have hqe : q.1 = key := by simpa using List.find?_some hq
      simp [Option.map_some, hqe]

/-- Witness for C9 on the empty database. -/
theorem c9_settings_witness :
    GetSetting DB.empty "video_sort" = "" ∧
    GetSetting (SetSetting DB.empty "video_sort" "rating") "video_sort" =
      "rating" := by
  exact ⟨(c9_settings DB.empty "video_sort" "rating").1 (by decide),
    (c9_settings DB.empty "video_sort" "rating").2⟩

/-- C10: the mutation operations succeed (affecting nothing) on a missing
id — only the lookups report absence, as a `sql.ErrNoRows` error. -/
theorem c10_missing_id_behaviour (db : DB) (id tagID : Nat) (name : String)
    (rating : Int) :
    ((∀ v ∈ db.videos, v.id ≠ id) → (∀ p ∈ db.videoTags, p.1 ≠ id) →
      (∀ wr ∈ db.watchHistory, wr.videoId ≠ id) →
      DeleteVideo db id = db ∧ UpdateVideoName db id name = db ∧
      SetVideoRating db id rating = db ∧ GetVideo db id = none) ∧
    ((id, tagID) ∉ db.videoTags → UntagVideo db id tagID = db) ∧
    ((∀ d ∈ db.directories, d.id ≠ id) → GetDirectory db id = none) ∧
    ((∀ wr ∈ db.watchHistory, wr.videoId ≠ id) → GetWatch db id = none) := by
  refine ⟨?_, ?_, ?_, ?_⟩
  · intro hv hp hw
    refine ⟨?_, ?_, ?_, ?_⟩
    · unfold DeleteVideo
      rw [List.filter_eq_self.mpr (fun a ha => by simp [hv a ha]),
        List.filter_eq_self.mpr (fun a ha => by simp [hp a ha]),
        List.filter_eq_self.mpr (fun a ha => by simp [hw a ha])]
    · unfold UpdateVideoName
      rw [map_eq_self_of (fun a ha => by simp [hv a ha])]
    · unfold SetVideoRating
      rw [map_eq_self_of (fun a ha => by simp [hv a ha])]
    · exact List.find?_eq_none.mpr (fun a ha => by simp [hv a ha])
  · intro hm
    unfold UntagVideo
    rw [List.filter_eq_self.mpr (fun a ha => by
      have : ¬(a.1 = id ∧ a.2 = tagID) := by
        rintro ⟨h1, h2⟩
        apply hm
        have : a = (id, tagID) := by
          cases a
          simp_all
        rwa [this] at ha
      simp only [Bool.not_eq_eq_eq_not, Bool.not_true, Bool.not_eq_true']
      cases h1 : (a.1 == id) <;> cases h2 : (a.2 == tagID) <;> simp_all)]
  · intro hd
    exact List.find?_eq_none.mpr (fun a ha => by simp [hd a ha])
  · intro hw
    exact List.find?_eq_none.mpr (fun a ha => by simp [hw a ha])

theorem recordWatch_pred_invar (vid : Nat) (pos : Int) (now : Nat) :
    ∀ w : WatchRecord,
      ((if w.videoId == vid then
          ({ videoId := vid, position := pos, watchedAt := now } :
            WatchRecord)
        else w).videoId == vid) = (w.videoId == vid) := by
  intro w
  cases hw : (w.videoId == vid)
  · simp [hw]
  · simp [hw]

theorem recordWatch_filter (db : DB) (vid : Nat) (pos : Int) (now : Nat)
    (h : (db.watchHistory.filter (fun w => w.videoId == vid)).length ≤ 1) :
    (RecordWatch db vid pos now).watchHistory.filter
        (fun w => w.videoId == vid) =
      [{ videoId := vid, position := pos, watchedAt := now }] := by
  unfold RecordWatch
  cases ha : db.watchHistory.any (fun w => w.videoId == vid)
  · rw [if_neg (by simp)]
    show (db.watchHistory ++ _).filter _ = _
    rw [List.filter_append,
      List.filter_eq_nil_iff.mpr (fun a haa => by
        simpa using List.any_eq_false.mp ha a haa)]
    simp
  · rw [if_pos rfl]
    show (db.watchHistory.map _).filter _ = _
    rw [List.filter_map]
    have hone : (db.watchHistory.filter (fun w => w.videoId == vid)).length
        = 1 := by
      obtain ⟨x, hx, hpx⟩ := List.any_eq_true.mp ha
      have : x ∈ db.watchHistory.filter (fun w => w.videoId == vid) :=
        List.mem_filter.mpr ⟨hx, hpx⟩
      have := List.length_pos_of_mem this
      omega
    obtain ⟨w0, hw0⟩ := List.length_eq_one.mp hone
    have hcomp : ((fun w : WatchRecord => w.videoId == vid) ∘
        (fun w : WatchRecord => if w.videoId == vid then
          { videoId := vid, position := pos, watchedAt := now } else w)) =
        (fun w : WatchRecord => w.videoId == vid) :=
      funext (recordWatch_pred_invar vid pos now)
    rw [hcomp, hw0]
    have hpw0 : (w0.videoId == vid) = true := by
      have : w0 ∈ db.watchHistory.filter (fun w => w.videoId == vid) := by
        rw [hw0]
        simp
      exact (List.mem_filter.mp this).2
    have hveq : w0.videoId = vid := by simpa using hpw0
    simp [hveq]

theorem recordWatch_getWatch (db : DB) (vid : Nat) (pos : Int) (now : Nat) :
    GetWatch (RecordWatch db vid pos now) vid =
      some { videoId := vid, position := pos, watchedAt := now } := by
  unfold RecordWatch GetWatch
  cases ha : db.watchHistory.any (fun w => w.videoId == vid)
  · rw [if_neg (by simp)]
    show (db.watchHistory ++ _).find? _ = _
    rw [List.find?_append,
      List.find?_eq_none.mpr (fun a haa => by
        simpa using List.any_eq_false.mp ha a haa)]
    simp
  · rw [if_pos rfl]
    show (db.watchHistory.map _).find? _ = _
    rw [find?_map_invar _ (recordWatch_pred_invar vid pos now)]
    obtain ⟨x, hx, hpx⟩ := List.any_eq_true.mp ha
    obtain ⟨q, hq⟩ :
        ∃ q, db.watchHistory.find? (fun w => w.videoId == vid) = some q :=
      Option.isSome_iff_exists.mp (List.find?_isSome.mpr
        (⟨x, hx, hpx⟩ :
          ∃ y ∈ db.watchHistory,
            (fun w : WatchRecord => w.videoId == vid) y))
    rw [hq]
    have hqe : q.videoId = vid := by simpa using List.find?_some hq
    simp [hqe]

theorem recordWatch_filter_le_one (db : DB) (vid : Nat) (pos : Int)
    (now : Nat)
    (h : (db.watchHistory.filter (fun w => w.videoId == vid)).length ≤ 1) :
    ((RecordWatch db vid pos now).watchHistory.filter
        (fun w => w.videoId == vid)).length ≤ 1 := by
  rw [recordWatch_filter db vid pos now h]
  simp

/-- C7: repeated `RecordWatch` calls keep exactly one watch record per
video, holding the position and timestamp of the latest call, and
`GetWatch` on a video with no record returns the no-rows error (`none`),
distinct from a zero-position record. -/
theorem c7_watch_upsert (db dbx : DB) (videoID vid : Nat) (p1 p2 : Int)
    (t1 t2 : Nat)
    (h1 : (db.watchHistory.filter
      (fun w => w.videoId == videoID)).length ≤ 1)
    (h2 : ∀ w ∈ dbx.watchHistory, w.videoId ≠ vid) :
    (RecordWatch (RecordWatch db videoID p1 t1) videoID p2
        t2).watchHistory.filter (fun w => w.videoId == videoID) =
      [{ videoId := videoID, position := p2, watchedAt := t2 }] ∧
    GetWatch (RecordWatch (RecordWatch db videoID p1 t1) videoID p2 t2)
        videoID =
      some { videoId := videoID, position := p2, watchedAt := t2 } ∧
    GetWatch dbx vid = none := by
  refine ⟨?_, recordWatch_getWatch _ _ _ _, ?_⟩
  · exact recordWatch_filter _ _ _ _
      (recordWatch_filter_le_one db videoID p1 t1 h1)
  · exact List.find?_eq_none.mpr (fun a ha => by simp [h2 a ha])

/-- Witness for C7: scenario B at video 5, positions 30 then 95. -/
theorem c7_watch_upsert_witness :
    (RecordWatch (RecordWatch exDb4 5 30 10) 5 95 11).watchHistory.filter
        (fun w => w.videoId == 5) =
      [{ videoId := 5, position := 95, watchedAt := 11 }] ∧
    GetWatch (RecordWatch (RecordWatch exDb4 5 30 10) 5 95 11) 5 =
      some { videoId := 5, position := 95, watchedAt := 11 } ∧
    GetWatch exDb4 5 = none := by
  exact c7_watch_upsert exDb4 exDb4 5 5 30 95 10 11 (by decide) (by decide)

/-- Witness for C10 at a missing id on a concrete database. -/
theorem c10_missing_id_behaviour_witness :
    DeleteVideo exDb4 99 = exDb4 ∧ UpdateVideoName exDb4 99 "x" = exDb4 ∧
    SetVideoRating exDb4 99 1 = exDb4 ∧ GetVideo exDb4 99 = none ∧
    UntagVideo exDb4 99 1 = exDb4 ∧ GetDirectory exDb4 99 = none ∧
    GetWatch exDb4 99 = none := by
  have h := c10_missing_id_behaviour exDb4 99 1 "x" 1
  have h1 := h.1 (by decide) (by decide) (by decide)
  exact ⟨h1.1, h1.2.1, h1.2.2.1, h1.2.2.2, h.2.1 (by decide),
    h.2.2.1 (by decide), h.2.2.2 (by decide)⟩

theorem char_eq_of_toNat_eq {a b : Char} (h : a.toNat = b.toNat) : a = b :=
  Char.ext (UInt32.toNat.inj h)

theorem charListLT_trans : ∀ as bs cs : List Char,
    charListLT as bs = true → charListLT bs cs = true →
    charListLT as cs = true := by
  intro as
  induction as with
  | nil =>
    intro bs cs h1 h2
    cases bs with
    | nil => simp [charListLT] at h1
    | cons b bs =>
      cases cs with
      | nil => simp [charListLT] at h2
      | cons c cs => simp [charListLT]
  | cons a as ih =>
    intro bs cs h1 h2
    cases bs with
    | nil => simp [charListLT] at h1
    | cons b bs =>
      cases cs with
      | nil => simp [charListLT] at h2
      | cons c cs =>
        simp only [charListLT, Bool.or_eq_true, decide_eq_true_eq,
          Bool.and_eq_true, beq_iff_eq] at h1 h2 ⊢
        rcases h1 with h1 | ⟨hab, h1⟩
        · rcases h2 with h2 | ⟨hbc, h2⟩
          · exact Or.inl (Nat.lt_trans h1 h2)
          · subst hbc
            exact Or.inl h1
        · subst hab
          rcases h2 with h2 | ⟨hbc, h2⟩
          · exact Or.inl h2
          · subst hbc
            exact Or.inr ⟨rfl, ih bs cs h1 h2⟩

theorem charListLT_asymm : ∀ as bs : List Char,
    charListLT as bs = true → charListLT bs as = true → False := by
  intro as
  induction as with
  | nil =>
    intro bs h1 h2
    cases bs with
    | nil => simp [charListLT] at h1
    | cons b bs => simp [charListLT] at h2
  | cons a as ih =>
    intro bs h1 h2
    cases bs with
    | nil => simp [charListLT] at h1
    | cons b bs =>
      simp only [charListLT, Bool.or_eq_true, decide_eq_true_eq,
        Bool.and_eq_true, beq_iff_eq] at h1 h2
      rcases h1 with h1 | ⟨hab, h1⟩ <;> rcases h2 with h2 | ⟨hba, h2⟩
      · omega
      · subst hba
        omega
      · subst hab
        omega
      · exact ih bs h1 h2

theorem charListLT_conn : ∀ as bs : List Char,
    charListLT as bs = false → charListLT bs as = false → as = bs := by
  intro as
  induction as with
  | nil =>
    intro bs h1 h2
    cases bs with
    | nil => rfl
    | cons b bs => simp [charListLT] at h1
  | cons a as ih =>
    intro bs h1 h2
    cases bs with
    | nil => simp [charListLT] at h2
    | cons b bs =>
      simp only [charListLT, Bool.or_eq_false_iff, decide_eq_false_iff_not,
        Bool.and_eq_false_iff, beq_eq_false_iff_ne, ne_eq] at h1 h2
      have hab : a = b := char_eq_of_toNat_eq (by omega)
      subst hab
      rcases h1.2 with h1' | h1'
      · exact absurd rfl h1'
      · rcases h2.2 with h2' | h2'
        · exact absurd rfl h2'
        · rw [ih bs h1' h2']

theorem strLE_total (a b : String) : strLE a b = true ∨ strLE b a = true := by
  unfold strLE
  cases h1 : charListLT b.data a.data
  · exact Or.inl (by simp)
  · cases h2 : charListLT a.data b.data
    · exact Or.inr (by simp)
    · exact (charListLT_asymm _ _ h2 h1).elim

theorem strLE_trans {a b c : String} (h1 : strLE a b = true)
    (h2 : strLE b c = true) : strLE a c = true := by
  unfold strLE at h1 h2 ⊢
  simp only [Bool.not_eq_eq_eq_not, Bool.not_true] at h1 h2 ⊢
  cases hca : charListLT c.data a.data
  · rfl
  · cases hbc : charListLT b.data c.data
    · have hbceq := charListLT_conn _ _ hbc h2
      rw [← hbceq] at hca
      rw [h1] at hca
      simp at hca
    · have htr := charListLT_trans _ _ _ hbc hca
      rw [h1] at htr
      simp at htr

instance titleLE_isTotal : IsTotal Video titleLE :=
  ⟨fun a b => strLE_total a.Title b.Title⟩

instance titleLE_isTrans : IsTrans Video titleLE :=
  ⟨fun _ _ _ h1 h2 => strLE_trans h1 h2⟩

instance ratingTitleLE_isTotal : IsTotal Video ratingTitleLE := by
  refine ⟨fun a b => ?_⟩
  unfold ratingTitleLE
  rcases lt_trichotomy a.rating b.rating with h | h | h
  · exact Or.inr (Or.inl h)
  · rcases titleLE_isTotal.total a b with ht | ht
    · exact Or.inl (Or.inr ⟨h, ht⟩)
    · exact Or.inr (Or.inr ⟨h.symm, ht⟩)
  · exact Or.inl (Or.inl h)

instance ratingTitleLE_isTrans : IsTrans Video ratingTitleLE := by
  refine ⟨fun a b c h1 h2 => ?_⟩
  unfold ratingTitleLE at h1 h2 ⊢
  rcases h1 with h1 | ⟨he1, ht1⟩
  · rcases h2 with h2 | ⟨he2, ht2⟩
    · exact Or.inl (by omega)
    · exact Or.inl (by omega)
  · rcases h2 with h2 | ⟨he2, ht2⟩
    · exact Or.inl (by omega)
    · exact Or.inr ⟨by omega, strLE_trans ht1 ht2⟩

/-- C8 counterexample: `ListVideos` is NOT ordered by the case-insensitive
effective title — under the binary collation `"BBB.mp4"` sorts before
`"aaa.mp4"`, while the case-insensitive order is the reverse. -/
theorem c8_not_ci_ordered :
    (ListVideos exDb8).map Video.filename = ["BBB.mp4", "aaa.mp4"] ∧
    ¬ ciTitleOrdered (ListVideos exDb8) := by
  constructor
  · decide
  · decide

/-- C8 (amended): the four listings return a permutation of the (filtered)
`videos` table ordered by the effective title under SQLite's default
case-SENSITIVE BINARY collation (`ListVideosByRating`: by rating descending,
then that title); only the `SearchVideos` match filter is case-insensitive. -/
theorem c8_listings_sorted_binary (db : DB) (tagID : Nat) (q : String) :
    (ListVideos db).Perm db.videos ∧
    (ListVideos db).Pairwise titleLE ∧
    (ListVideosByTag db tagID).Perm
      (db.videos.filter (fun v => decide ((v.id, tagID) ∈ db.videoTags))) ∧
    (ListVideosByTag db tagID).Pairwise titleLE ∧
    (SearchVideos db q).Perm
      (db.videos.filter (fun v =>
        containsSub (lowerStr q).data (lowerStr v.Title).data)) ∧
    (SearchVideos db q).Pairwise titleLE ∧
    (ListVideosByRating db).Perm db.videos ∧
    (ListVideosByRating db).Pairwise ratingTitleLE := by
  exact ⟨List.perm_insertionSort titleLE db.videos,
    List.sorted_insertionSort titleLE db.videos,
    List.perm_insertionSort titleLE _,
    List.sorted_insertionSort titleLE _,
    List.perm_insertionSort titleLE _,
    List.sorted_insertionSort titleLE _,
    List.perm_insertionSort ratingTitleLE db.videos,
    List.sorted_insertionSort ratingTitleLE db.videos⟩

theorem runList_cons_mem {σ : Type} (s : Script σ) (rest : List (Script σ))
    (st : MigState σ) (h : trimSqlSuffix s.filename ∈ st.ledger) :
    runList (s :: rest) st = runList rest st := by
  simp only [runList]
  rw [if_pos h]

theorem runList_cons_fail {σ : Type} (s : Script σ) (rest : List (Script σ))
    (st : MigState σ) (h1 : trimSqlSuffix s.filename ∉ st.ledger)
    (h2 : s.exec st.dbs = none) :
    runList (s :: rest) st = (st, some (trimSqlSuffix s.filename)) := by
  simp only [runList]
  rw [if_neg h1, h2]

theorem runList_cons_ok {σ : Type} (s : Script σ) (rest : List (Script σ))
    (st : MigState σ) (d : σ) (h1 : trimSqlSuffix s.filename ∉ st.ledger)
    (h2 : s.exec st.dbs = some d) :
    runList (s :: rest) st = runList rest
      { dbs := d, ledger := st.ledger ++ [trimSqlSuffix s.filename] } := by
  simp only [runList]
  rw [if_neg h1, h2]

theorem runList_ledger {σ : Type} : ∀ (l : List (Script σ))
    (st st' : MigState σ) (err : Option String),
    runList l st = (st', err) →
    st'.ledger.take st.ledger.length = st.ledger ∧
    List.Sublist (st'.ledger.drop st.ledger.length)
      (l.map (fun s => trimSqlSuffix s.filename)) ∧
    ∀ v ∈ st'.ledger.drop st.ledger.length, v ∉ st.ledger := by
  intro l
  induction l with
  | nil =>
    intro st st' err h
    have h' : ((st, none) : MigState σ × Option String) = (st', err) := h
    injection h' with e1 e2
    subst e1
    simp
  | cons s rest ih =>
    intro st st' err h
    by_cases hmem : trimSqlSuffix s.filename ∈ st.ledger
    · rw [runList_cons_mem s rest st hmem] at h
      obtain ⟨h1, h2, h3⟩ := ih st st' err h
      exact ⟨h1, h2.cons _, h3⟩
    · cases hex : s.exec st.dbs with
      | none =>
        rw [runList_cons_fail s rest st hmem hex] at h
        injection h with e1 e2
        subst e1
        simp
      | some d =>
        rw [runList_cons_ok s rest st d hmem hex] at h
        obtain ⟨h1, h2, h3⟩ := ih _ st' err h
        have hlen : (st.ledger ++ [trimSqlSuffix s.filename]).length =
            st.ledger.length + 1 := by simp
        rw [hlen] at h1 h2 h3
        have htk : st'.ledger.take st.ledger.length = st.ledger := by
          have : st'.ledger.take st.ledger.length =
              (st'.ledger.take (st.ledger.length + 1)).take
                st.ledger.length := by
            rw [List.take_take]
            congr 1
            omega
          rw [this, h1]
          exact List.take_left' rfl
        have hdec : st'.ledger =
            (st.ledger ++ [trimSqlSuffix s.filename]) ++
              st'.ledger.drop (st.ledger.length + 1) := by
          conv_lhs => rw [← List.take_append_drop (st.ledger.length + 1)
            st'.ledger]
          rw [h1]
        have hdrop : st'.ledger.drop st.ledger.length =
            trimSqlSuffix s.filename ::
              st'.ledger.drop (st.ledger.length + 1) := by
          conv_lhs => rw [hdec]
          rw [List.append_assoc]
          exact List.drop_left' rfl
        refine ⟨htk, ?_, ?_⟩
        · rw [hdrop]
          simp only [List.map_cons]
          exact h2.cons₂ _
        · rw [hdrop]
          intro v hv
          rcases List.mem_cons.mp hv with rfl | hv'
          · exact hmem
          · have := h3 v hv'
            simp only [List.mem_append, List.mem_singleton] at this
            exact fun hc => this (Or.inl hc)

theorem runList_failure {σ : Type} : ∀ (l : List (Script σ))
    (st st' : MigState σ) (v : String),
    runList l st = (st', some v) →
    ∃ l₁ s l₂, l = l₁ ++ s :: l₂ ∧ trimSqlSuffix s.filename = v ∧
      runList l₁ st = (st', none) ∧ s.exec st'.dbs = none ∧
      v ∉ st'.ledger := by
  intro l
  induction l with
  | nil =>
    intro st st' v h
    have h' : ((st, none) : MigState σ × Option String) = (st', some v) := h
    injection h' with e1 e2
    exact Option.noConfusion e2
  | cons s rest ih =>
    intro st st' v h
    by_cases hmem : trimSqlSuffix s.filename ∈ st.ledger
    · rw [runList_cons_mem s rest st hmem] at h
      obtain ⟨l₁, s', l₂, hdec, hver, hrun, hex, hnot⟩ := ih st st' v h
      exact ⟨s :: l₁, s', l₂, by rw [hdec, List.cons_append], hver,
        by rw [runList_cons_mem s l₁ st hmem, hrun], hex, hnot⟩
    · cases hex : s.exec st.dbs with
      | none =>
        rw [runList_cons_fail s rest st hmem hex] at h
        injection h with e1 e2
        have hv : trimSqlSuffix s.filename = v := by
          simpa using e2
        subst e1
        exact ⟨[], s, rest, rfl, hv, rfl, hex, hv ▸ hmem⟩
      | some d =>
        rw [runList_cons_ok s rest st d hmem hex] at h
        obtain ⟨l₁, s', l₂, hdec, hver, hrun, hexf, hnot⟩ := ih _ st' v h
        exact ⟨s :: l₁, s', l₂, by rw [hdec, List.cons_append], hver,
          by rw [runList_cons_ok s l₁ st d hmem hex, hrun], hexf, hnot⟩

instance scriptLE_isTotal {σ : Type} :
    IsTotal (Script σ) (fun a b => strLE a.filename b.filename = true) :=
  ⟨fun a b => strLE_total a.filename b.filename⟩

instance scriptLE_isTrans {σ : Type} :
    IsTrans (Script σ) (fun a b => strLE a.filename b.filename = true) :=
  ⟨fun _ _ _ h1 h2 => strLE_trans h1 h2⟩

/-- C2: `runMigrations` processes scripts in ascending filename order,
applies only unapplied versions (appending them to the ledger in that
order), executes each script and inserts its ledger row atomically, and on
a failing script returns the error with exactly the state produced by the
preceding scripts — the failing version is not recorded and no later
script is applied. -/
theorem c2_migrations {σ : Type} (scripts : List (Script σ))
    (st st' : MigState σ) (err : Option String)
    (h : runMigrations scripts st = (st', err)) :
    ((sortScripts scripts).map (fun s => s.filename)).Pairwise
      (fun a b => strLE a b = true) ∧
    st'.ledger.take st.ledger.length = st.ledger ∧
    List.Sublist (st'.ledger.drop st.ledger.length)
      ((sortScripts scripts).map (fun s => trimSqlSuffix s.filename)) ∧
    (∀ v ∈ st'.ledger.drop st.ledger.length, v ∉ st.ledger) ∧
    ∀ v, err = some v →
      ∃ l₁ s l₂, sortScripts scripts = l₁ ++ s :: l₂ ∧
        trimSqlSuffix s.filename = v ∧
        runList l₁ st = (st', none) ∧ s.exec st'.dbs = none ∧
        v ∉ st'.ledger ∧
        List.Sublist (st'.ledger.drop st.ledger.length)
          (l₁.map (fun s => trimSqlSuffix s.filename)) := by
  have hrl : runList (sortScripts scripts) st = (st', err) := h
  obtain ⟨h1, h2, h3⟩ := runList_ledger (sortScripts scripts) st st' err hrl
  refine ⟨?_, h1, h2, h3, ?_⟩
  · exact List.pairwise_map.mpr
      (List.sorted_insertionSort
        (fun a b : Script σ => strLE a.filename b.filename = true) scripts)
  · intro v hv
    subst hv
    obtain ⟨l₁, s, l₂, hdec, hver, hrun, hexf, hnot⟩ :=
      runList_failure (sortScripts scripts) st st' v hrl
    obtain ⟨-, hsub, -⟩ := runList_ledger l₁ st st' none hrun
    exact ⟨l₁, s, l₂, hdec, hver, hrun, hexf, hnot, hsub⟩

/-- Witness for C2: a failing second migration commits only the first. -/
theorem c2_migrations_witness :
    runMigrations c2scripts ⟨0, []⟩ =
      ({ dbs := 1, ledger := ["001_a"] }, some "002_b") ∧
    ∃ l₁ s l₂, sortScripts c2scripts = l₁ ++ s :: l₂ ∧
      trimSqlSuffix s.filename = "002_b" ∧
      runList l₁ (⟨0, []⟩ : MigState Nat) =
        ({ dbs := 1, ledger := ["001_a"] }, none) ∧
      s.exec 1 = none ∧ "002_b" ∉ (["001_a"] : List String) := by
  have hrun : runMigrations c2scripts ⟨0, []⟩ =
      ({ dbs := 1, ledger := ["001_a"] }, some "002_b") := rfl
  have h := c2_migrations c2scripts ⟨0, []⟩
    { dbs := 1, ledger := ["001_a"] } (some "002_b") hrun
  obtain ⟨l₁, s, l₂, hdec, hver, hrunl, hexf, hnot, -⟩ :=
    h.2.2.2.2 "002_b" rfl
  exact ⟨hrun, l₁, s, l₂, hdec, hver, hrunl, hexf, by decide⟩

theorem upsertVideo_ret_dirId (db : DB) (i : Nat) (p n : String) :
    (UpsertVideo db i p n).1.directoryId = some i := by
  rcases h : db.videos.find? (keyMatch n p) with _ | v
  · rw [upsert_new h]
  · rw [upsert_found h]

theorem upsertVideo_next (db : DB) (i : Nat) (p n : String) :
    db.nextVideoId ≤ (UpsertVideo db i p n).2.nextVideoId := by
  rcases h : db.videos.find? (keyMatch n p) with _ | v
  · rw [upsert_new h]
    exact Nat.le_succ _
  · rw [upsert_found h]

theorem upsertTag_found {db : DB} {n : String} {t : Tag}
    (h : db.tags.find? (fun t => t.name == n) = some t) :
    UpsertTag db n = (t, db) := by
  unfold UpsertTag
  rw [h]

theorem upsertTag_new {db : DB} {n : String}
    (h : db.tags.find? (fun t => t.name == n) = none) :
    UpsertTag db n =
      ({ id := db.nextTagId, name := n },
       { db with
          tags := db.tags ++ [{ id := db.nextTagId, name := n }],
          nextTagId := db.nextTagId + 1 }) := by
  unfold UpsertTag
  rw [h]

theorem upsertTag_frame (db : DB) (n : String) :
    (UpsertTag db n).2.videos = db.videos ∧
    (UpsertTag db n).2.videoTags = db.videoTags ∧
    (UpsertTag db n).2.nextVideoId = db.nextVideoId := by
  rcases h : db.tags.find? (fun t => t.name == n) with _ | t
  · rw [upsertTag_new h]
    exact ⟨rfl, rfl, rfl⟩
  · rw [upsertTag_found h]
    exact ⟨rfl, rfl, rfl⟩

theorem upsertTag_find?_self (db : DB) (n : String) :
    (UpsertTag db n).2.tags.find? (fun t => t.name == n) =
      some (UpsertTag db n).1 := by
  rcases h : db.tags.find? (fun t => t.name == n) with _ | t
  · rw [upsertTag_new h]
    simp only [List.find?_append, h, Option.none_or]
    simp [List.find?]
  · rw [upsertTag_found h]
    exact h

theorem tagVideo_frame (db : DB) (a b : Nat) :
    (TagVideo db a b).videos = db.videos ∧
    (TagVideo db a b).tags = db.tags ∧
    (TagVideo db a b).nextVideoId = db.nextVideoId := by
  unfold TagVideo
  split
  · exact ⟨rfl, rfl, rfl⟩
  · exact ⟨rfl, rfl, rfl⟩

theorem tagVideo_mem_self (db : DB) (a b : Nat) :
    (a, b) ∈ (TagVideo db a b).videoTags := by
  unfold TagVideo
  split
  · assumption
  · simp

theorem tagVideo_mem_mono {db : DB} {x : Nat × Nat} (a b : Nat)
    (h : x ∈ db.videoTags) : x ∈ (TagVideo db a b).videoTags := by
  unfold TagVideo
  split
  · exact h
  · exact List.mem_append_left _ h

theorem keyMatch_updateFun2 (fn dp n p : String) (i : Nat) (x : Video) :
    keyMatch fn dp
        (if keyMatch n p x then { x with directoryId := some i } else x) =
      keyMatch fn dp x := by
  cases hx : keyMatch n p x
  · simp [hx]
  · simp [hx, keyMatch_setDirId]

theorem keyMatch_renameFun (fn dp t : String) (i : Nat) (x : Video) :
    keyMatch fn dp
        (if x.id == i then { x with displayName := t } else x) =
      keyMatch fn dp x := by
  cases hx : (x.id == i)
  · simp [hx]
  · simp [hx, keyMatch_setName]

theorem find?_after_upsert_other {db : DB} {i : Nat} {p n fn dp : String}
    {v : Video} (hne : ¬(fn = n ∧ dp = p))
    (hfind : db.videos.find? (keyMatch fn dp) = some v) :
    (UpsertVideo db i p n).2.videos.find? (keyMatch fn dp) = some v := by
  have hvkey := keyMatch_iff.mp (List.find?_some hfind)
  rcases h : db.videos.find? (keyMatch n p) with _ | w
  · rw [upsert_new h]
    rw [List.find?_append, hfind]
    rfl
  · rw [upsert_found h]
    rw [find?_map_invar _ (keyMatch_updateFun2 fn dp n p i), hfind]
    have hnk : keyMatch n p v = false := by
      cases hk : keyMatch n p v
      · rfl
      · obtain ⟨h1, h2⟩ := keyMatch_iff.mp hk
        exact absurd ⟨hvkey.1 ▸ h1, hvkey.2 ▸ h2⟩ hne
    simp [hnk]

theorem find?_after_rename {db : DB} {i : Nat} {t fn dp : String}
    {v : Video} (hfind : db.videos.find? (keyMatch fn dp) = some v) :
    (UpdateVideoName db i t).videos.find? (keyMatch fn dp) =
      some (if v.id == i then { v with displayName := t } else v) := by
  unfold UpdateVideoName
  rw [find?_map_invar _ (keyMatch_renameFun fn dp t i), hfind]
  rfl

theorem wf_map_update {db : DB} (hwf : WF db) {u : Video → Video}
    (hid : ∀ v, (u v).id = v.id)
    (hkey : ∀ v, (u v).filename = v.filename ∧
      (u v).directoryPath = v.directoryPath) :
    WF { db with videos := db.videos.map u } := by
  obtain ⟨h1, h2, h3, h4, h5⟩ := hwf
  refine ⟨?_, ?_, ?_, h4, h5⟩
  · rw [List.map_map]
    have he : ((fun v : Video => v.id) ∘ u) = fun v : Video => v.id :=
      funext fun v => hid v
    rw [he]
    exact h1
  · intro v hv
    obtain ⟨a, ha, rfl⟩ := List.mem_map.mp hv
    rw [hid a]
    exact h2 a ha
  · rw [List.map_map]
    have he : ((fun v : Video => (v.filename, v.directoryPath)) ∘ u) =
        fun v : Video => (v.filename, v.directoryPath) :=
      funext fun v => by
        simp only [Function.comp_apply, (hkey v).1, (hkey v).2]
    rw [he]
    exact h3

theorem wf_upsertVideo {db : DB} (hwf : WF db) (i : Nat) (p n : String) :
    WF (UpsertVideo db i p n).2 := by
  rcases h : db.videos.find? (keyMatch n p) with _ | v
  · rw [upsert_new h]
    dsimp only
    obtain ⟨h1, h2, h3, h4, h5⟩ := hwf
    refine ⟨?_, ?_, ?_, h4, h5⟩
    · rw [List.map_append]
      rw [List.nodup_append]
      refine ⟨h1, by simp, ?_⟩
      intro a ha hb
      simp only [List.map_cons, List.map_nil, List.mem_singleton] at hb
      obtain ⟨w, hw, hwa⟩ := List.mem_map.mp ha
      have := h2 w hw
      omega
    · intro v hv
      show v.id < db.nextVideoId + 1
      rcases List.mem_append.mp hv with hv | hv
      · have := h2 v hv
        omega
      · simp only [List.mem_singleton] at hv
        subst hv
        show db.nextVideoId < db.nextVideoId + 1
        omega
    · rw [List.map_append]
      rw [List.nodup_append]
      refine ⟨h3, by simp, ?_⟩
      intro a ha hb
      simp only [List.map_cons, List.map_nil, List.mem_singleton] at hb
      subst hb
      obtain ⟨w, hw, hwa⟩ := List.mem_map.mp ha
      have hkm : keyMatch n p w = true := by
        apply keyMatch_iff.mpr
        have ha1 : w.filename = n := congrArg Prod.fst hwa
        have ha2 : w.directoryPath = p := congrArg Prod.snd hwa
        exact ⟨ha1, ha2⟩
      exact List.find?_eq_none.mp h w hw hkm
  · rw [upsert_found h]
    exact wf_map_update hwf
      (fun x => by cases hx : keyMatch n p x <;> simp [hx])
      (fun x => by cases hx : keyMatch n p x <;> simp [hx])

theorem wf_updateVideoName {db : DB} (hwf : WF db) (i : Nat) (t : String) :
    WF (UpdateVideoName db i t) :=
  wf_map_update hwf
    (fun x => by cases hx : (x.id == i) <;> simp [hx])
    (fun x => by cases hx : (x.id == i) <;> simp [hx])

theorem wf_upsertTag {db : DB} (hwf : WF db) (n : String) :
    WF (UpsertTag db n).2 := by
  rcases h : db.tags.find? (fun t => t.name == n) with _ | t
  · rw [upsertTag_new h]
    obtain ⟨h1, h2, h3, h4, h5⟩ := hwf
    refine ⟨h1, h2, h3, ?_, h5⟩
    rw [List.map_append]
    rw [List.nodup_append]
    refine ⟨h4, by simp, ?_⟩
    intro a ha hb
    simp only [List.map_cons, List.map_nil, List.mem_singleton] at hb
    subst hb
    obtain ⟨w, hw, hwa⟩ := List.mem_map.mp ha
    have := List.find?_eq_none.mp h w hw
    simp [hwa] at this
  · rw [upsertTag_found h]
    exact hwf

theorem wf_tagVideo {db : DB} (hwf : WF db) (a b : Nat) :
    WF (TagVideo db a b) := by
  obtain ⟨h1, h2, h3, h4, h5⟩ := hwf
  unfold TagVideo
  split
  · exact ⟨h1, h2, h3, h4, h5⟩
  · refine ⟨h1, h2, h3, h4, ?_⟩
    rw [List.nodup_append]
    refine ⟨h5, by simp, ?_⟩
    intro x hx hxb
    simp only [List.mem_singleton] at hxb
    subst hxb
    rename_i hnot
    exact hnot hx

theorem wf_syncFile {db : DB} (hwf : WF db)
    (readTitle : String → Option String) (d : Directory)
    (f : String × String) : WF (syncFile readTitle d db f) := by
  simp only [syncFile]
  apply wf_tagVideo
  apply wf_upsertTag
  have hwf1 := wf_upsertVideo hwf d.id f.1 f.2
  by_cases hdn : (UpsertVideo db d.id f.1 f.2).1.displayName = ""
  · rw [if_pos hdn]
    cases hrt : readTitle (joinPath f.1 f.2) with
    | none => exact hwf1
    | some t =>
      dsimp only
      by_cases ht : t ≠ ""
      · rw [if_pos ht]
        exact wf_updateVideoName hwf1 _ t
      · rw [if_neg ht]
        exact hwf1
  · rw [if_neg hdn]
    exact hwf1

theorem find?_after_rename2 (i : Nat) (t : String) {db : DB}
    {fn dp : String} {v : Video}
    (hfind : db.videos.find? (keyMatch fn dp) = some v) :
    (UpdateVideoName db i t).videos.find? (keyMatch fn dp) =
      some (if v.id == i then { v with displayName := t } else v) := by
  unfold UpdateVideoName
  rw [find?_map_invar _ (keyMatch_renameFun fn dp t i), hfind]
  rfl

theorem synced_fresh_tail {rt : String → Option String} {d : Directory}
    {f : String × String} {db2 : DB} {row : Video} {vid : Nat}
    (hfindv : db2.videos.find? (keyMatch f.2 f.1) = some row)
    (hdir : row.directoryId = some d.id)
    (hname : row.displayName = "" →
      rt (joinPath f.1 f.2) = none ∨ rt (joinPath f.1 f.2) = some "")
    (hrowid : row.id = vid) :
    Synced rt d f
      (TagVideo (UpsertTag db2 (baseOf d.path)).2 vid
        (UpsertTag db2 (baseOf d.path)).1.id) := by
  refine ⟨row, ?_, hdir, hname, (UpsertTag db2 (baseOf d.path)).1, ?_, ?_⟩
  · rw [(tagVideo_frame _ _ _).1, (upsertTag_frame db2 _).1]
    exact hfindv
  · rw [(tagVideo_frame _ _ _).2.1]
    exact upsertTag_find?_self db2 _
  · rw [hrowid]
    exact tagVideo_mem_self _ _ _

theorem synced_establish (rt : String → Option String) (d : Directory)
    (f : String × String) (db : DB) :
    Synced rt d f (syncFile rt d db f) := by
  simp only [syncFile]
  have hfind1 := upsert_find?_self db d.id f.1 f.2
  have hdir1 := upsertVideo_ret_dirId db d.id f.1 f.2
  by_cases hdn : (UpsertVideo db d.id f.1 f.2).1.displayName = ""
  · rw [if_pos hdn]
    cases hrt : rt (joinPath f.1 f.2) with
    | none =>
      exact synced_fresh_tail hfind1 hdir1 (fun _ => Or.inl hrt) rfl
    | some t =>
      dsimp only
      by_cases ht : t ≠ ""
      · rw [if_pos ht]
        have hf2 := find?_after_rename2 (UpsertVideo db d.id f.1 f.2).1.id t
          hfind1
        rw [beq_self_eq_true, if_pos rfl] at hf2
        exact synced_fresh_tail hf2 hdir1 (fun hcon => absurd hcon ht) rfl
      · rw [if_neg ht]
        have ht' : t = "" := not_ne_iff.mp ht
        exact synced_fresh_tail hfind1 hdir1
          (fun _ => Or.inr (by rw [hrt, ht'])) rfl
  · rw [if_neg hdn]
    exact synced_fresh_tail hfind1 hdir1 (fun hcon => absurd hcon hdn) rfl

theorem synced_tag_tail {rt : String → Option String} {d : Directory}
    {f : String × String} {db2 : DB} {v : Video} (t : Tag) (vid : Nat)
    (hfindv : db2.videos.find? (keyMatch f.2 f.1) = some v)
    (hdir : v.directoryId = some d.id)
    (hname : v.displayName = "" →
      rt (joinPath f.1 f.2) = none ∨ rt (joinPath f.1 f.2) = some "")
    (htfind : db2.tags.find? (fun t => t.name == baseOf d.path) = some t)
    (hmem : (v.id, t.id) ∈ db2.videoTags) :
    Synced rt d f
      (TagVideo (UpsertTag db2 (baseOf d.path)).2 vid
        (UpsertTag db2 (baseOf d.path)).1.id) := by
  rw [upsertTag_found htfind]
  show Synced rt d f (TagVideo db2 vid t.id)
  refine ⟨v, ?_, hdir, hname, t, ?_, tagVideo_mem_mono _ _ hmem⟩
  · rw [(tagVideo_frame _ _ _).1]
    exact hfindv
  · rw [(tagVideo_frame _ _ _).2.1]
    exact htfind

theorem synced_preserve {rt : String → Option String} {d : Directory}
    {f : String × String} {db : DB} (hwf : WF db)
    (g : String × String) (hs : Synced rt d f db) :
    Synced rt d f (syncFile rt d db g) := by
  by_cases hfg : f = g
  · subst hfg
    exact synced_establish rt d f db
  · obtain ⟨v, hfind, hdir, hname, t, htfind, hmem⟩ := hs
    obtain ⟨hids, hlt, hkeys, -, -⟩ := hwf
    have hne : ¬(f.2 = g.2 ∧ f.1 = g.1) := by
      rintro ⟨h1, h2⟩
      exact hfg (Prod.ext h2 h1)
    have hfind1 : (UpsertVideo db d.id g.1 g.2).2.videos.find?
        (keyMatch f.2 f.1) = some v :=
      find?_after_upsert_other hne hfind
    have hvid : v.id ≠ (UpsertVideo db d.id g.1 g.2).1.id := by
      rcases hg : db.videos.find? (keyMatch g.2 g.1) with _ | w
      · rw [upsert_new hg]
        show v.id ≠ db.nextVideoId
        have := hlt v (List.mem_of_find?_eq_some hfind)
        omega
      · rw [upsert_found hg]
        show v.id ≠ w.id
        intro hcon
        have hvw : v = w := List.inj_on_of_nodup_map hids
          (List.mem_of_find?_eq_some hfind)
          (List.mem_of_find?_eq_some hg) hcon
        have hkv := keyMatch_iff.mp (List.find?_some hfind)
        have hkw := keyMatch_iff.mp (List.find?_some hg)
        apply hne
        constructor
        · rw [← hkv.1, hvw, hkw.1]
        · rw [← hkv.2, hvw, hkw.2]
    have htags1 : (UpsertVideo db d.id g.1 g.2).2.tags = db.tags :=
      (upsert_other_tables db d.id g.1 g.2).1
    have hvt1 : (UpsertVideo db d.id g.1 g.2).2.videoTags = db.videoTags :=
      (upsert_other_tables db d.id g.1 g.2).2.1
    simp only [syncFile]
    by_cases hdn : (UpsertVideo db d.id g.1 g.2).1.displayName = ""
    · rw [if_pos hdn]
      cases hrt : rt (joinPath g.1 g.2) with
      | none =>
        refine synced_tag_tail t _ hfind1 hdir hname ?_ ?_
        · rw [htags1]
          exact htfind
        · rw [hvt1]
          exact hmem
      | some s =>
        dsimp only
        by_cases ht : s ≠ ""
        · rw [if_pos ht]
          have hf2 := find?_after_rename2 (UpsertVideo db d.id g.1 g.2).1.id
            s hfind1
          rw [if_neg (by simp [hvid])] at hf2
          refine synced_tag_tail t _ hf2 hdir hname ?_ ?_
          · show (UpsertVideo db d.id g.1 g.2).2.tags.find? _ = _
            rw [htags1]
            exact htfind
          · show (v.id, t.id) ∈ (UpsertVideo db d.id g.1 g.2).2.videoTags
            rw [hvt1]
            exact hmem
        · rw [if_neg ht]
          refine synced_tag_tail t _ hfind1 hdir hname ?_ ?_
          · rw [htags1]
            exact htfind
          · rw [hvt1]
            exact hmem
    · rw [if_neg hdn]
      refine synced_tag_tail t _ hfind1 hdir hname ?_ ?_
      · rw [htags1]
        exact htfind
      · rw [hvt1]
        exact hmem

theorem syncTail_id (d : Directory) {db : DB} {t : Tag} (vid : Nat)
    (htfind : db.tags.find? (fun x => x.name == baseOf d.path) = some t)
    (hmem : (vid, t.id) ∈ db.videoTags) :
    TagVideo (UpsertTag db (baseOf d.path)).2 vid
      (UpsertTag db (baseOf d.path)).1.id = db := by
  rw [upsertTag_found htfind]
  show TagVideo db vid t.id = db
  unfold TagVideo
  rw [if_pos hmem]

theorem syncFile_fixpoint {rt : String → Option String} {d : Directory}
    {f : String × String} {db : DB} (hwf : WF db)
    (hs : Synced rt d f db) : syncFile rt d db f = db := by
  obtain ⟨v, hfind, hdir, hname, t, htfind, hmem⟩ := hs
  obtain ⟨-, -, hkeys, -, -⟩ := hwf
  have h1 : UpsertVideo db d.id f.1 f.2 = (v, db) := by
    rw [upsert_found hfind]
    have hfst : ({ v with directoryId := some d.id } : Video) = v := by
      rw [← hdir]
    have hmap : db.videos.map (fun w =>
        if keyMatch f.2 f.1 w then { w with directoryId := some d.id }
        else w) = db.videos := by
      apply map_eq_self_of
      intro w hw
      cases hkm : keyMatch f.2 f.1 w
      · simp
      · have hkv := keyMatch_iff.mp (List.find?_some hfind)
        have hkw := keyMatch_iff.mp hkm
        have hwv : w = v := List.inj_on_of_nodup_map hkeys hw
          (List.mem_of_find?_eq_some hfind)
          (by rw [hkw.1, hkw.2, hkv.1, hkv.2])
        rw [if_pos rfl, hwv]
        exact hfst
    rw [hfst, hmap]
  simp only [syncFile, h1]
  by_cases hdn : v.displayName = ""
  · rw [if_pos hdn]
    rcases hname hdn with hrt | hrt
    · rw [hrt]
      exact syncTail_id d v.id htfind hmem
    · rw [hrt]
      dsimp only
      rw [if_neg (by simp)]
      exact syncTail_id d v.id htfind hmem
  · rw [if_neg hdn]
    exact syncTail_id d v.id htfind hmem

theorem wf_foldl (rt : String → Option String) (d : Directory) :
    ∀ (fs : List (String × String)) (db : DB), WF db →
      WF (fs.foldl (syncFile rt d) db) := by
  intro fs
  induction fs with
  | nil =>
    intro db h
    exact h
  | cons g rest ih =>
    intro db h
    show WF (rest.foldl (syncFile rt d) (syncFile rt d db g))
    exact ih _ (wf_syncFile h rt d g)

theorem synced_foldl_preserve (rt : String → Option String) (d : Directory)
    (f : String × String) :
    ∀ (fs : List (String × String)) (db : DB), WF db →
      Synced rt d f db →
      Synced rt d f (fs.foldl (syncFile rt d) db) := by
  intro fs
  induction fs with
  | nil =>
    intro db _ hs
    exact hs
  | cons g rest ih =>
    intro db h hs
    show Synced rt d f (rest.foldl (syncFile rt d) (syncFile rt d db g))
    exact ih _ (wf_syncFile h rt d g) (synced_preserve h g hs)

theorem synced_after_foldl (rt : String → Option String) (d : Directory) :
    ∀ (fs : List (String × String)) (db : DB), WF db →
      ∀ f ∈ fs, Synced rt d f (fs.foldl (syncFile rt d) db) := by
  intro fs
  induction fs with
  | nil =>
    intro db _ f hf
    cases hf
  | cons g rest ih =>
    intro db h f hf
    show Synced rt d f (rest.foldl (syncFile rt d) (syncFile rt d db g))
    rcases List.mem_cons.mp hf with rfl | hf'
    · exact synced_foldl_preserve rt d f rest _ (wf_syncFile h rt d f)
        (synced_establish rt d f db)
    · exact ih (syncFile rt d db g) (wf_syncFile h rt d g) f hf'

theorem foldl_fixpoint (rt : String → Option String) (d : Directory) :
    ∀ (fs : List (String × String)) (db : DB), WF db →
      (∀ f ∈ fs, Synced rt d f db) →
      fs.foldl (syncFile rt d) db = db := by
  intro fs
  induction fs with
  | nil =>
    intro db _ _
    rfl
  | cons g rest ih =>
    intro db h hs
    show rest.foldl (syncFile rt d) (syncFile rt d db g) = db
    rw [syncFile_fixpoint h (hs g (by simp))]
    exact ih db h (fun f hf => hs f (by simp [hf]))

theorem count_beq_bridge (x : Nat × Nat) (l : List (Nat × Nat)) :
    l.count x = @List.count _ instBEqOfDecidableEq x l := by
  unfold List.count
  apply List.countP_congr
  intro b _
  show ((b.1 == x.1 && b.2 == x.2) = true) ↔ (decide (b = x) = true)
  obtain ⟨b1, b2⟩ := b
  obtain ⟨x1, x2⟩ := x
  by_cases h1 : b1 = x1 <;> by_cases h2 : b2 = x2 <;>
    simp [h1, h2, Prod.ext_iff]

/-- C6: every file reconciled by the sync — nested subfolders included —
gets the auto-tag named after the registered root's base name (not the
subfolder's), and sync is idempotent: a second run over the unchanged tree
is the identity, so the video count is unchanged and each synced video
carries exactly one association with the auto-tag. -/
theorem c6_sync_idempotent_autotag (rt : String → Option String)
    (d : Directory) (tree : List FTree) (db : DB) (hwf : WF db) :
    (∀ f ∈ collectList d.path tree,
      ∃ v ∈ (syncDir rt d tree db).videos, v.filename = f.2 ∧
        v.directoryPath = f.1 ∧
        ∃ t ∈ (syncDir rt d tree db).tags, t.name = baseOf d.path ∧
          (v.id, t.id) ∈ (syncDir rt d tree db).videoTags) ∧
    syncDir rt d tree (syncDir rt d tree db) = syncDir rt d tree db ∧
    (syncDir rt d tree (syncDir rt d tree db)).videos.length =
      (syncDir rt d tree db).videos.length ∧
    (∀ f ∈ collectList d.path tree,
      ∃ v ∈ (syncDir rt d tree db).videos, v.filename = f.2 ∧
        v.directoryPath = f.1 ∧
        ∃ t ∈ (syncDir rt d tree db).tags, t.name = baseOf d.path ∧
          (syncDir rt d tree db).videoTags.count (v.id, t.id) = 1) := by
  have hwf1 : WF (syncDir rt d tree db) :=
    wf_foldl rt d (collectList d.path tree) db hwf
  have hsyn : ∀ f ∈ collectList d.path tree,
      Synced rt d f (syncDir rt d tree db) :=
    synced_after_foldl rt d (collectList d.path tree) db hwf
  have hfix : syncDir rt d tree (syncDir rt d tree db) =
      syncDir rt d tree db :=
    foldl_fixpoint rt d (collectList d.path tree) (syncDir rt d tree db)
      hwf1 hsyn
  refine ⟨?_, hfix, by rw [hfix], ?_⟩
  · intro f hf
    obtain ⟨v, hfind, hdir, hname, t, htfind, hmem⟩ := hsyn f hf
    have hkv := keyMatch_iff.mp (List.find?_some hfind)
    have hkt := List.find?_some htfind
    exact ⟨v, List.mem_of_find?_eq_some hfind, hkv.1, hkv.2,
      t, List.mem_of_find?_eq_some htfind, by simpa using hkt, hmem⟩
  · intro f hf
    obtain ⟨v, hfind, hdir, hname, t, htfind, hmem⟩ := hsyn f hf
    have hkv := keyMatch_iff.mp (List.find?_some hfind)
    have hkt := List.find?_some htfind
    refine ⟨v, List.mem_of_find?_eq_some hfind, hkv.1, hkv.2,
      t, List.mem_of_find?_eq_some htfind, by simpa using hkt, ?_⟩
    rw [count_beq_bridge]
    exact List.count_eq_one_of_mem hwf1.2.2.2.2 hmem

/-- Witness for C6: scenario A's tree synced twice from the empty
database. -/
theorem c6_sync_idempotent_autotag_witness :
    syncDir (fun _ => none) exDirShows exTreeShows
        (syncDir (fun _ => none) exDirShows exTreeShows DB.empty) =
      syncDir (fun _ => none) exDirShows exTreeShows DB.empty ∧
    (∀ f ∈ collectList exDirShows.path exTreeShows,
      ∃ v ∈ (syncDir (fun _ => none) exDirShows exTreeShows
          DB.empty).videos,
        v.filename = f.2 ∧ v.directoryPath = f.1 ∧
        ∃ t ∈ (syncDir (fun _ => none) exDirShows exTreeShows
            DB.empty).tags,
          t.name = baseOf exDirShows.path ∧
          (syncDir (fun _ => none) exDirShows exTreeShows
              DB.empty).videoTags.count (v.id, t.id) = 1) := by
  have h := c6_sync_idempotent_autotag (fun _ => none) exDirShows
    exTreeShows DB.empty (by decide)
  exact ⟨h.2.1, h.2.2.2⟩

end VideoManger
